import Mathlib

/-!
Shallow embedding of the virtual-branch core of this repository:
the `Branch` entity with its ownership list (`put` / `take`), the
branch codec (`Branch::try_from`), the catalog accessors
(`BranchReader::read`, `BranchReader::read_selected`), and the
terminal selection prompt's key handler
(`Selection::on_key_pressed`).

Machine integers: the Rust code stores `u128` timestamps but performs
no arithmetic on them, so they are embedded as `Nat`.  Rust's stable
`sort_by` is embedded as `List.insertionSort` (also a stable sort over
the same total preorder on file paths), and `Vec::dedup` (which drops
only *consecutive* duplicates) as `dedupRust` below.
-/

namespace GitButler

/-- Modelled from the spec: `Hunk` (file `hunk.rs` is outside the visible
source).  The spec describes a hunk as "conceptually a half-open line
range `[start, end)`"; the minimal range-only contract is implemented,
as §9 of the spec directs. -/
structure Hunk where
  start : Nat
  stop : Nat
  deriving DecidableEq, Repr

/-- One file's claimed hunks; `file_path` is the key inside
`Branch.ownership`.  The Rust field is a `PathBuf`; its byte-wise
ordering is embedded as `String` with its lexicographic order. -/
structure Ownership where
  file_path : String
  hunks : List Hunk
  deriving DecidableEq, Repr

/-- Insertion of a hunk into a start-sorted hunk list. -/
def insertHunk (h : Hunk) : List Hunk → List Hunk
  | [] => [h]
  | x :: xs => if h.start ≤ x.start then h :: x :: xs else x :: insertHunk h xs

/-- Sort hunks ascending by start position. -/
def sortHunks : List Hunk → List Hunk
  | [] => []
  | x :: xs => insertHunk x (sortHunks xs)

/-- Coalescing walk: `cur` is the region being grown; a following hunk
that overlaps or directly touches it (`h.start ≤ cur.stop`) is merged
into it, otherwise `cur` is emitted. -/
def coalesceGo (cur : Hunk) : List Hunk → List Hunk
  | [] => [cur]
  | h :: rest =>
    if h.start ≤ cur.stop then coalesceGo ⟨cur.start, max cur.stop h.stop⟩ rest
    else cur :: coalesceGo h rest

/-- Coalesce a start-sorted hunk list: adjacent or overlapping hunks are
merged into a single spanning hunk. -/
def coalesce : List Hunk → List Hunk
  | [] => []
  | h :: rest => coalesceGo h rest

/-- Modelled from the spec: `Ownership::plus` (file `ownership.rs` is
outside the visible source).  Per §4.2: the result keeps the file path
and holds the normalized union of both hunk sequences — merged into one
sorted sequence, then adjacent/overlapping hunks coalesced. -/
def Ownership.plus (a b : Ownership) : Ownership :=
  { file_path := a.file_path, hunks := coalesce (sortHunks (a.hunks ++ b.hunks)) }

/-- The pieces of `h` that survive removing `cut` (zero, one or two
sub-ranges). -/
def Hunk.subtract (h cut : Hunk) : List Hunk :=
  if cut.stop ≤ h.start ∨ h.stop ≤ cut.start then [h]
  else
    (if h.start < cut.start then [⟨h.start, cut.start⟩] else []) ++
    (if cut.stop < h.stop then [⟨cut.stop, h.stop⟩] else [])

/-- Subtract every hunk of `cuts` from every hunk of `hs`, keeping the
surviving sub-ranges. -/
def subtractAll (hs cuts : List Hunk) : List Hunk :=
  cuts.foldl (fun acc cut => acc.flatMap (fun h => h.subtract cut)) hs

/-- Modelled from the spec: `Ownership::minus` (file `ownership.rs` is
outside the visible source).  Per §4.2: subtracts `b`'s hunks from
`a`'s, splitting partial overlaps, and returns `none` when nothing
remains. -/
def Ownership.minus (a b : Ownership) : Option Ownership :=
  let rest := subtractAll a.hunks b.hunks
  if rest.isEmpty then none
  else some { file_path := a.file_path, hunks := rest }

/-- Walk for `dedupRust`: `a` is the element about to be emitted; a
following equal element is skipped, mirroring `Vec::dedup`'s removal of
consecutive duplicates. -/
def dedupGo {α : Type} [DecidableEq α] (a : α) : List α → List α
  | [] => [a]
  | b :: l => if a = b then dedupGo b l else a :: dedupGo b l

/-- `Vec::dedup`: remove consecutive duplicate elements. -/
def dedupRust {α : Type} [DecidableEq α] : List α → List α
  | [] => []
  | a :: l => dedupGo a l

/-- The comparison `a.file_path.cmp(&b.file_path)` used by
`Branch::put` / `Branch::take` to sort the ownership list.  `String`'s
order is by definition the lexicographic order on its character list
(`String.lt_iff_toList_lt`); the embedding compares the lists directly. -/
def fpLE (a b : Ownership) : Prop := a.file_path.data ≤ b.file_path.data

instance : DecidableRel fpLE :=
  fun a b => inferInstanceAs (Decidable (a.file_path.data ≤ b.file_path.data))

instance : IsTotal Ownership fpLE :=
  ⟨fun a b => le_total a.file_path.data b.file_path.data⟩

instance : IsTrans Ownership fpLE := ⟨fun _ _ _ h1 h2 => le_trans h1 h2⟩

/-- `self.ownership.sort_by(|a, b| a.file_path.cmp(&b.file_path))`:
a stable sort by file path, embedded as stable insertion sort. -/
def ownSort (l : List Ownership) : List Ownership := List.insertionSort fpLE l

/-- The `sort_by` followed by `dedup` that ends `Branch::put` and
`Branch::take`. -/
def ownNormalize (l : List Ownership) : List Ownership := dedupRust (ownSort l)

/-- Modelled from the spec: the 160-bit git object identifier
(`git2::Oid`, an external library type).  Per §6/§9 it is "a 160-bit
hex-string identifier"; the canonical form is 40 hex characters. -/
structure Oid where
  hex : String
  deriving DecidableEq, Repr

def isHexDigit (c : Char) : Bool :=
  c.isDigit || ('a' ≤ c && c ≤ 'f') || ('A' ≤ c && c ≤ 'F')

/-- Modelled from the spec: `git2::Oid::from_str`, failing on anything
that is not a valid 160-bit hex identifier. -/
def Oid.fromStr (s : String) : Option Oid :=
  if s.length = 40 && s.data.all isHexDigit then some ⟨s⟩ else none

/-- The `Branch` record (`branch/mod.rs`). -/
structure Branch where
  id : String
  name : String
  applied : Bool
  upstream : String
  created_timestamp_ms : Nat
  updated_timestamp_ms : Nat
  tree : Oid
  head : Oid
  ownership : List Ownership
  deriving DecidableEq, Repr

/-- `Branch::put`: find the first entry with the same file path, drop
every entry with that path, push either `existing.plus(o)` or `o`
itself, then re-sort by file path and dedup. -/
def Branch.put (b : Branch) (o : Ownership) : Branch :=
  let target := b.ownership.find? (fun x => x.file_path == o.file_path)
  let kept := b.ownership.filter (fun x => x.file_path != o.file_path)
  let pushed :=
    match target with
    | some t => kept ++ [t.plus o]
    | none => kept ++ [o]
  { b with ownership := ownNormalize pushed }

/-- `Branch::take`: find the first entry with the same file path, drop
every entry with that path, push `existing.minus(o)` when it is `Some`,
then re-sort by file path and dedup. -/
def Branch.take (b : Branch) (o : Ownership) : Branch :=
  let target := b.ownership.find? (fun x => x.file_path == o.file_path)
  let kept := b.ownership.filter (fun x => x.file_path != o.file_path)
  let pushed :=
    match target with
    | some t =>
      match t.minus o with
      | some r => kept ++ [r]
      | none => kept
    | none => kept
  { b with ownership := ownNormalize pushed }

/-- One mutation of a branch's ownership list. -/
inductive BranchOp where
  | put (o : Ownership)
  | take (o : Ownership)

def applyOp (b : Branch) : BranchOp → Branch
  | .put o => b.put o
  | .take o => b.take o

/-- Apply a sequence of `put`/`take` calls in order. -/
def applyOps (b : Branch) (ops : List BranchOp) : Branch := ops.foldl applyOp b

/-- The invariant of `Branch.ownership`: strictly ascending by file
path, which is exactly "sorted ascending by file path with no two
entries sharing a file path". -/
abbrev PathSorted (l : List Ownership) : Prop :=
  l.Pairwise (fun a b => a.file_path.data < b.file_path.data)

/-- File paths pairwise distinct — what survives sorting and is turned
into strict sortedness by `pathSorted_ownNormalize`. -/
abbrev PathsDistinct (l : List Ownership) : Prop :=
  l.Pairwise (fun a b => a.file_path ≠ b.file_path)

end GitButler

namespace GitButler

/-! ### Properties of `dedupRust` (Rust `Vec::dedup`) -/

theorem dedupGo_sublist {α : Type} [DecidableEq α] (a : α) (l : List α) :
    (dedupGo a l).Sublist (a :: l) := by
  induction l generalizing a with
  | nil => simp [dedupGo]
  | cons b l ih =>
    by_cases h : a = b
    · subst h
      simpa [dedupGo] using List.Sublist.cons a (ih a)
    · simpa [dedupGo, h] using List.Sublist.cons₂ a (ih b)

theorem mem_dedupGo {α : Type} [DecidableEq α] (a : α) (l : List α) {x : α}
    (hx : x ∈ a :: l) : x ∈ dedupGo a l := by
  induction l generalizing a with
  | nil => simpa [dedupGo] using hx
  | cons b l ih =>
    by_cases h : a = b
    · simp only [dedupGo, if_pos h]
      apply ih b
      rcases List.mem_cons.mp hx with h1 | h1
      · rw [h1, h]; exact List.mem_cons_self b l
      · exact h1
    · simp only [dedupGo, if_neg h]
      rcases List.mem_cons.mp hx with h1 | h1
      · exact h1 ▸ List.mem_cons_self _ _
      · exact List.mem_cons_of_mem a (ih b h1)

theorem dedupGo_of_chain {α : Type} [DecidableEq α] {a : α} {l : List α}
    (h : List.Chain' (· ≠ ·) (a :: l)) : dedupGo a l = a :: l := by
  induction l generalizing a with
  | nil => rfl
  | cons b l ih =>
    have hab : a ≠ b := (List.chain'_cons.mp h).1
    have ht := (List.chain'_cons.mp h).2
    simp [dedupGo, if_neg hab, ih ht]

theorem dedupRust_sublist {α : Type} [DecidableEq α] (l : List α) :
    (dedupRust l).Sublist l := by
  cases l with
  | nil => simp [dedupRust]
  | cons a l => exact dedupGo_sublist a l

theorem mem_dedupRust {α : Type} [DecidableEq α] {l : List α} {x : α}
    (hx : x ∈ l) : x ∈ dedupRust l := by
  cases l with
  | nil => cases hx
  | cons a l => exact mem_dedupGo a l hx

theorem dedupRust_of_chain {α : Type} [DecidableEq α] {l : List α}
    (h : List.Chain' (· ≠ ·) l) : dedupRust l = l := by
  cases l with
  | nil => rfl
  | cons a l => exact dedupGo_of_chain h

/-! ### Properties of the sort-and-dedup normalization -/

theorem pathsDistinct_of_pathSorted {l : List Ownership} (h : PathSorted l) :
    PathsDistinct l :=
  h.imp fun hlt heq => absurd (heq ▸ hlt) (lt_irrefl _)

theorem pairwise_ne_of_pathSorted {l : List Ownership} (h : PathSorted l) :
    l.Pairwise (· ≠ ·) :=
  h.imp fun hlt heq => absurd (heq ▸ hlt) (lt_irrefl _)

theorem pathSorted_ownNormalize {l : List Ownership} (h : PathsDistinct l) :
    PathSorted (ownNormalize l) := by
  have hs : List.Sorted fpLE (ownSort l) := List.sorted_insertionSort fpLE l
  have hp : (ownSort l).Perm l := List.perm_insertionSort fpLE l
  have hne : PathsDistinct (ownSort l) :=
    (hp.pairwise_iff (fun hab => hab.symm)).mpr h
  have hlt : PathSorted (ownSort l) := by
    refine (hs.and hne).imp ?_
    rintro a b ⟨hle, hnefp⟩
    exact lt_of_le_of_ne hle (fun hdata => hnefp (String.ext hdata))
  have hchain : List.Chain' (· ≠ ·) (ownSort l) :=
    (pairwise_ne_of_pathSorted hlt).chain'
  unfold ownNormalize
  rw [dedupRust_of_chain hchain]
  exact hlt

theorem ownNormalize_of_pathSorted {l : List Ownership} (h : PathSorted l) :
    ownNormalize l = l := by
  have hs : List.Sorted fpLE l := h.imp fun hlt => le_of_lt hlt
  unfold ownNormalize ownSort
  rw [hs.insertionSort_eq]
  exact dedupRust_of_chain (pairwise_ne_of_pathSorted h).chain'

theorem pathsDistinct_push {l : List Ownership} {p : String}
    (hd : PathsDistinct l) (x : Ownership) (hx : x.file_path = p) :
    PathsDistinct ((l.filter (fun a => a.file_path != p)) ++ [x]) := by
  refine List.pairwise_append.mpr ⟨List.Pairwise.sublist (List.filter_sublist _) hd,
    List.pairwise_singleton _ _, ?_⟩
  intro a ha y hy
  rcases List.mem_singleton.mp hy with rfl
  have hmem := (List.mem_filter.mp ha).2
  rw [hx]
  intro heq
  simp [bne, heq] at hmem

theorem filter_ownNormalize_push (rest : List Ownership) (x : Ownership)
    (hrest : ∀ a ∈ rest, (a.file_path == x.file_path) = false) :
    (ownNormalize (rest ++ [x])).filter (fun a => a.file_path == x.file_path) = [x] := by
  have hp : (ownSort (rest ++ [x])).Perm (rest ++ [x]) := List.perm_insertionSort fpLE _
  have hfil : (rest ++ [x]).filter (fun a => a.file_path == x.file_path) = [x] := by
    rw [List.filter_append]
    rw [List.filter_eq_nil_iff.mpr (by intro a ha; simp [hrest a ha])]
    simp
  have hsf : (ownSort (rest ++ [x])).filter (fun a => a.file_path == x.file_path) = [x] := by
    have hperm := hp.filter (fun a => a.file_path == x.file_path)
    rw [hfil] at hperm
    exact List.perm_singleton.mp hperm
  have hsub : ((ownNormalize (rest ++ [x])).filter
      (fun a => a.file_path == x.file_path)).Sublist [x] := by
    have hh := List.Sublist.filter (fun a : Ownership => a.file_path == x.file_path)
      (dedupRust_sublist (ownSort (rest ++ [x])))
    rw [hsf] at hh
    exact hh
  have hxmem : x ∈ ownNormalize (rest ++ [x]) :=
    mem_dedupRust (hp.mem_iff.mpr (by simp))
  have hxf : x ∈ (ownNormalize (rest ++ [x])).filter
      (fun a => a.file_path == x.file_path) :=
    List.mem_filter.mpr ⟨hxmem, by simp⟩
  refine hsub.eq_of_length ?_
  have h1 : ((ownNormalize (rest ++ [x])).filter
      (fun a => a.file_path == x.file_path)).length ≤ 1 := by
    simpa using hsub.length_le
  have h2 : 0 < ((ownNormalize (rest ++ [x])).filter
      (fun a => a.file_path == x.file_path)).length :=
    List.length_pos.mpr (List.ne_nil_of_mem hxf)
  simp only [List.length_singleton]
  omega

theorem filter_ownNormalize_none (rest : List Ownership) (p : String)
    (hrest : ∀ a ∈ rest, (a.file_path == p) = false) :
    (ownNormalize rest).filter (fun a => a.file_path == p) = [] := by
  have hp : (ownSort rest).Perm rest := List.perm_insertionSort fpLE rest
  have hfil : rest.filter (fun a => a.file_path == p) = [] :=
    List.filter_eq_nil_iff.mpr (by intro a ha; simp [hrest a ha])
  have hsf : (ownSort rest).filter (fun a => a.file_path == p) = [] := by
    have hperm := hp.filter (fun a => a.file_path == p)
    rw [hfil] at hperm
    exact hperm.eq_nil
  have hsub := List.Sublist.filter (fun a : Ownership => a.file_path == p)
    (dedupRust_sublist (ownSort rest))
  rw [hsf] at hsub
  exact List.sublist_nil.mp hsub

/-! ### file-path preservation of the modelled algebra -/

theorem Ownership.plus_file_path (a b : Ownership) :
    (a.plus b).file_path = a.file_path := rfl

theorem Ownership.minus_file_path {a b r : Ownership}
    (h : a.minus b = some r) : r.file_path = a.file_path := by
  unfold Ownership.minus at h
  by_cases he : (subtractAll a.hunks b.hunks).isEmpty
  · simp [he] at h
  · simp only [he, Bool.false_eq_true, if_false] at h
    cases h
    rfl

end GitButler

namespace GitButler

/-! ### Preservation of the ownership-list invariant -/

theorem pathsDistinct_kept {b : Branch} (p : String)
    (h : PathsDistinct b.ownership) :
    PathsDistinct (b.ownership.filter (fun x => x.file_path != p)) :=
  List.Pairwise.sublist (List.filter_sublist _) h

theorem put_pathSorted {b : Branch} (o : Ownership) (h : PathSorted b.ownership) :
    PathSorted (b.put o).ownership := by
  have hd : PathsDistinct b.ownership := pathsDistinct_of_pathSorted h
  cases hfind : b.ownership.find? (fun x => x.file_path == o.file_path) with
  | some t =>
    have hbeq := List.find?_some hfind
    have htfp : (t.plus o).file_path = o.file_path :=
      (Ownership.plus_file_path t o).trans (eq_of_beq (by simpa using hbeq))
    simp only [Branch.put, hfind]
    exact pathSorted_ownNormalize (pathsDistinct_push hd (t.plus o) htfp)
  | none =>
    simp only [Branch.put, hfind]
    exact pathSorted_ownNormalize (pathsDistinct_push hd o rfl)

theorem take_pathSorted {b : Branch} (o : Ownership) (h : PathSorted b.ownership) :
    PathSorted (b.take o).ownership := by
  have hd : PathsDistinct b.ownership := pathsDistinct_of_pathSorted h
  cases hfind : b.ownership.find? (fun x => x.file_path == o.file_path) with
  | some t =>
    cases hmin : t.minus o with
    | some r =>
      have hbeq := List.find?_some hfind
      have hrfp : r.file_path = o.file_path :=
        (Ownership.minus_file_path hmin).trans (eq_of_beq (by simpa using hbeq))
      simp only [Branch.take, hfind, hmin]
      exact pathSorted_ownNormalize (pathsDistinct_push hd r hrfp)
    | none =>
      simp only [Branch.take, hfind, hmin]
      exact pathSorted_ownNormalize (pathsDistinct_kept o.file_path hd)
  | none =>
    simp only [Branch.take, hfind]
    exact pathSorted_ownNormalize (pathsDistinct_kept o.file_path hd)

/-- C1: starting from a branch whose ownership list is sorted ascending
by file path with at most one entry per file path (strict pairwise
ascent), any sequence of `Branch::put` / `Branch::take` calls leaves
the ownership list sorted ascending by file path with no two entries
sharing a file path. -/
theorem c1_ownership_invariant_applyOps (b : Branch) (ops : List BranchOp)
    (h : PathSorted b.ownership) : PathSorted ((applyOps b ops).ownership) := by
  induction ops generalizing b with
  | nil => exact h
  | cons op ops ih =>
    have h1 : PathSorted ((applyOp b op).ownership) := by
      cases op with
      | put o => exact put_pathSorted o h
      | take o => exact take_pathSorted o h
    exact ih (applyOp b op) h1

/-- Witness for C1 at a concrete branch and operation sequence. -/
theorem c1_ownership_invariant_applyOps_witness :
    PathSorted
      (Branch.ownership
        { id := "b1", name := "n", applied := true, upstream := "u",
          created_timestamp_ms := 1, updated_timestamp_ms := 2,
          tree := ⟨"t"⟩, head := ⟨"h"⟩,
          ownership := [⟨"a.txt", [⟨1, 3⟩]⟩, ⟨"b.txt", [⟨2, 5⟩]⟩] })
    ∧ PathSorted
      (Branch.ownership (applyOps
        { id := "b1", name := "n", applied := true, upstream := "u",
          created_timestamp_ms := 1, updated_timestamp_ms := 2,
          tree := ⟨"t"⟩, head := ⟨"h"⟩,
          ownership := [⟨"a.txt", [⟨1, 3⟩]⟩, ⟨"b.txt", [⟨2, 5⟩]⟩] }
        [.put ⟨"c.txt", [⟨0, 2⟩]⟩, .put ⟨"a.txt", [⟨2, 4⟩]⟩,
         .take ⟨"b.txt", [⟨2, 5⟩]⟩])) :=
  ⟨by decide, c1_ownership_invariant_applyOps _ _ (by decide)⟩

end GitButler

namespace GitButler

/-- C2: `Branch::put` leaves, at `o`'s file path, exactly the single
entry `existing.plus o` when an entry with that path existed (the first
such entry, which under the data-model invariant is the only one), and
exactly `o` itself when none existed. -/
theorem c2_put_file_path_entry (b : Branch) (o : Ownership) :
    (∀ t, b.ownership.find? (fun x => x.file_path == o.file_path) = some t →
      (b.put o).ownership.filter (fun x => x.file_path == o.file_path) = [t.plus o])
    ∧ (b.ownership.find? (fun x => x.file_path == o.file_path) = none →
      (b.put o).ownership.filter (fun x => x.file_path == o.file_path) = [o]) := by
  constructor
  · intro t ht
    have hbeq := List.find?_some ht
    have hplus : (t.plus o).file_path = o.file_path :=
      (Ownership.plus_file_path t o).trans (eq_of_beq (by simpa using hbeq))
    simp only [Branch.put, ht]
    rw [show (fun x : Ownership => x.file_path == o.file_path)
        = (fun x : Ownership => x.file_path == (t.plus o).file_path) from by
      funext x; rw [hplus]]
    apply filter_ownNormalize_push
    intro a ha
    have hmem := (List.mem_filter.mp ha).2
    rw [hplus]
    simpa [bne] using hmem
  · intro ht
    simp only [Branch.put, ht]
    apply filter_ownNormalize_push
    intro a ha
    have hmem := (List.mem_filter.mp ha).2
    simpa [bne] using hmem

/-- Witness for C2: both the occupied and the vacant file path at a
concrete branch. -/
theorem c2_put_file_path_entry_witness :
    (Branch.ownership (Branch.put
        { id := "b2", name := "n", applied := false, upstream := "",
          created_timestamp_ms := 0, updated_timestamp_ms := 0,
          tree := ⟨"t"⟩, head := ⟨"h"⟩,
          ownership := [⟨"a.txt", [⟨1, 3⟩]⟩] }
        ⟨"a.txt", [⟨5, 7⟩]⟩)).filter
      (fun x => x.file_path == "a.txt")
      = [Ownership.plus ⟨"a.txt", [⟨1, 3⟩]⟩ ⟨"a.txt", [⟨5, 7⟩]⟩]
    ∧ (Branch.ownership (Branch.put
        { id := "b2", name := "n", applied := false, upstream := "",
          created_timestamp_ms := 0, updated_timestamp_ms := 0,
          tree := ⟨"t"⟩, head := ⟨"h"⟩,
          ownership := [⟨"a.txt", [⟨1, 3⟩]⟩] }
        ⟨"z.txt", [⟨5, 7⟩]⟩)).filter
      (fun x => x.file_path == "z.txt")
      = [⟨"z.txt", [⟨5, 7⟩]⟩] :=
  ⟨(c2_put_file_path_entry _ ⟨"a.txt", [⟨5, 7⟩]⟩).1 ⟨"a.txt", [⟨1, 3⟩]⟩ (by decide),
   (c2_put_file_path_entry _ ⟨"z.txt", [⟨5, 7⟩]⟩).2 (by decide)⟩

/-- C3: when `b` has an entry `t` at `o`'s file path (the first such
entry), `Branch::take` leaves at that path exactly `t.minus o` when the
subtraction leaves a remainder, and no entry at all when it is `none`. -/
theorem c3_take_file_path_entry (b : Branch) (o t : Ownership)
    (ht : b.ownership.find? (fun x => x.file_path == o.file_path) = some t) :
    (∀ r, t.minus o = some r →
      (b.take o).ownership.filter (fun x => x.file_path == o.file_path) = [r])
    ∧ (t.minus o = none →
      (b.take o).ownership.filter (fun x => x.file_path == o.file_path) = []) := by
  have hbeq := List.find?_some ht
  have htfp : t.file_path = o.file_path := eq_of_beq (by simpa using hbeq)
  constructor
  · intro r hr
    have hrfp : r.file_path = o.file_path :=
      (Ownership.minus_file_path hr).trans htfp
    simp only [Branch.take, ht, hr]
    rw [show (fun x : Ownership => x.file_path == o.file_path)
        = (fun x : Ownership => x.file_path == r.file_path) from by
      funext x; rw [hrfp]]
    apply filter_ownNormalize_push
    intro a ha
    have hmem := (List.mem_filter.mp ha).2
    rw [hrfp]
    simpa [bne] using hmem
  · intro hr
    simp only [Branch.take, ht, hr]
    apply filter_ownNormalize_none
    intro a ha
    have hmem := (List.mem_filter.mp ha).2
    simpa [bne] using hmem

/-- Witness for C3: full subtraction removes the entry, partial
subtraction leaves the remainder. -/
theorem c3_take_file_path_entry_witness :
    (Branch.ownership (Branch.take
        { id := "b3", name := "n", applied := false, upstream := "",
          created_timestamp_ms := 0, updated_timestamp_ms := 0,
          tree := ⟨"t"⟩, head := ⟨"h"⟩,
          ownership := [⟨"a.txt", [⟨1, 5⟩]⟩] }
        ⟨"a.txt", [⟨1, 5⟩]⟩)).filter
      (fun x => x.file_path == "a.txt") = []
    ∧ (Branch.ownership (Branch.take
        { id := "b3", name := "n", applied := false, upstream := "",
          created_timestamp_ms := 0, updated_timestamp_ms := 0,
          tree := ⟨"t"⟩, head := ⟨"h"⟩,
          ownership := [⟨"a.txt", [⟨1, 5⟩]⟩] }
        ⟨"a.txt", [⟨1, 3⟩]⟩)).filter
      (fun x => x.file_path == "a.txt") = [⟨"a.txt", [⟨3, 5⟩]⟩] :=
  ⟨(c3_take_file_path_entry _ ⟨"a.txt", [⟨1, 5⟩]⟩ ⟨"a.txt", [⟨1, 5⟩]⟩
      (by decide)).2 (by decide),
   (c3_take_file_path_entry _ ⟨"a.txt", [⟨1, 3⟩]⟩ ⟨"a.txt", [⟨1, 5⟩]⟩
      (by decide)).1 ⟨"a.txt", [⟨3, 5⟩]⟩ (by decide)⟩

/-- C7 as stated is false: `Branch::take` unconditionally re-sorts (and
dedups) the ownership list, so on a branch whose list is not sorted a
`take` with an absent file path still permutes the entries.  Concrete
counterexample: ownership `[b.txt, a.txt]`, take of `c.txt`. -/
theorem c7_take_absent_counterexample :
    (∀ e ∈ (Branch.ownership
        { id := "b7", name := "n", applied := false, upstream := "",
          created_timestamp_ms := 0, updated_timestamp_ms := 0,
          tree := ⟨"t"⟩, head := ⟨"h"⟩,
          ownership := [⟨"b.txt", [⟨1, 2⟩]⟩, ⟨"a.txt", [⟨1, 2⟩]⟩] }),
      e.file_path ≠ "c.txt")
    ∧ Branch.take
        { id := "b7", name := "n", applied := false, upstream := "",
          created_timestamp_ms := 0, updated_timestamp_ms := 0,
          tree := ⟨"t"⟩, head := ⟨"h"⟩,
          ownership := [⟨"b.txt", [⟨1, 2⟩]⟩, ⟨"a.txt", [⟨1, 2⟩]⟩] }
        ⟨"c.txt", [⟨1, 2⟩]⟩
      ≠ { id := "b7", name := "n", applied := false, upstream := "",
          created_timestamp_ms := 0, updated_timestamp_ms := 0,
          tree := ⟨"t"⟩, head := ⟨"h"⟩,
          ownership := [⟨"b.txt", [⟨1, 2⟩]⟩, ⟨"a.txt", [⟨1, 2⟩]⟩] } := by
  decide

/-- C7 (amended): on a branch whose ownership list already satisfies the
sort invariant (strictly ascending by file path), `Branch::take` with a
file path that matches no entry leaves the branch unchanged. -/
theorem c7_take_absent_noop {b : Branch} (o : Ownership)
    (hsorted : PathSorted b.ownership)
    (habsent : ∀ e ∈ b.ownership, e.file_path ≠ o.file_path) :
    b.take o = b := by
  have hfind : b.ownership.find? (fun x => x.file_path == o.file_path) = none := by
    rw [List.find?_eq_none]
    intro x hx
    simp [habsent x hx]
  simp only [Branch.take, hfind]
  rw [List.filter_eq_self.mpr (by intro a ha; simpa using habsent a ha)]
  rw [ownNormalize_of_pathSorted hsorted]

/-- Witness for the amended C7 at a concrete sorted branch. -/
theorem c7_take_absent_noop_witness :
    PathSorted (Branch.ownership
      { id := "b7", name := "n", applied := false, upstream := "",
        created_timestamp_ms := 0, updated_timestamp_ms := 0,
        tree := ⟨"t"⟩, head := ⟨"h"⟩,
        ownership := [⟨"a.txt", [⟨1, 2⟩]⟩, ⟨"b.txt", [⟨1, 2⟩]⟩] })
    ∧ Branch.take
        { id := "b7", name := "n", applied := false, upstream := "",
          created_timestamp_ms := 0, updated_timestamp_ms := 0,
          tree := ⟨"t"⟩, head := ⟨"h"⟩,
          ownership := [⟨"a.txt", [⟨1, 2⟩]⟩, ⟨"b.txt", [⟨1, 2⟩]⟩] }
        ⟨"c.txt", [⟨1, 2⟩]⟩
      = { id := "b7", name := "n", applied := false, upstream := "",
          created_timestamp_ms := 0, updated_timestamp_ms := 0,
          tree := ⟨"t"⟩, head := ⟨"h"⟩,
          ownership := [⟨"a.txt", [⟨1, 2⟩]⟩, ⟨"b.txt", [⟨1, 2⟩]⟩] } :=
  ⟨by decide, c7_take_absent_noop ⟨"c.txt", [⟨1, 2⟩]⟩ (by decide) (by decide)⟩

end GitButler

namespace GitButler

/-! ### The structured-store reader and the branch codec -/

/-- `crate::reader::Error`.  The module defining it is outside the
visible source; the variant set is attested by every use in
`branch/mod.rs` / `branch/reader.rs`, and the Display text of
`NotFound` ("file not found") by the in-source test
`test_read_not_found`.  `IOError` carries the wrapped message. -/
inductive RError where
  | NotFound
  | IOError (msg : String)
  deriving DecidableEq, Repr

/-- Display of a reader error, as interpolated by `format!("{}", e)`. -/
def RError.toMsg : RError → String
  | .NotFound => "file not found"
  | .IOError m => m

/-- Modelled from the spec: the typed path-addressable Reader contract
of §4.1 (`crate::reader::Reader` is outside the visible source).  A
reader is the family of its read results; `exists_path` is the Rust
trait's `exists` (a reserved word in Lean). -/
structure Rdr where
  read_string : String → Except RError String
  read_bool : String → Except RError Bool
  read_u128 : String → Except RError Nat
  exists_path : String → Bool

/-- Modelled from the spec: `SubReader::new(reader, pre)` — the scoped
view of §4.1 whose paths get the scope joined in front with `/`
(path layout of §6). -/
def Rdr.sub (r : Rdr) (pre : String) : Rdr where
  read_string p := r.read_string (pre ++ "/" ++ p)
  read_bool p := r.read_bool (pre ++ "/" ++ p)
  read_u128 p := r.read_u128 (pre ++ "/" ++ p)
  exists_path p := r.exists_path (pre ++ "/" ++ p)

/-- Split a character list at every occurrence of `sep` (never returns
an empty list of pieces). -/
def splitOnChar (sep : Char) : List Char → List (List Char)
  | [] => [[]]
  | c :: cs =>
    if c = sep then [] :: splitOnChar sep cs
    else
      match splitOnChar sep cs with
      | [] => [[c]]
      | l :: ls => (c :: l) :: ls

/-- Strip one trailing carriage return, as Rust's `str::lines` does. -/
def stripCR (l : List Char) : List Char :=
  if l.getLast? = some '\r' then l.dropLast else l

/-- Rust `str::lines`: split on `'\n'`, drop the final empty piece a
trailing newline produces, strip a trailing `'\r'` from each line; the
empty string has no lines. -/
def rustLines (s : String) : List String :=
  if s.data.isEmpty then []
  else
    let parts := splitOnChar '\n' s.data
    let parts := if parts.getLast? = some [] then parts.dropLast else parts
    parts.map (fun l => String.mk (stripCR l))

def parseNatAux : List Char → Nat → Option Nat
  | [], acc => some acc
  | c :: cs, acc =>
    if c.isDigit then parseNatAux cs (acc * 10 + (c.toNat - 48)) else none

/-- Parse a non-empty all-digit string as a natural number. -/
def parseNat (s : String) : Option Nat :=
  match s.data with
  | [] => none
  | l => parseNatAux l 0

/-- Modelled from the spec: one `start-end` hunk range of an ownership
line (§9 proposes the `path:start-end,start-end` encoding). -/
def parseRange (s : String) : Option Hunk :=
  match splitOnChar '-' s.data with
  | [a, b] =>
    match parseNat (String.mk a), parseNat (String.mk b) with
    | some x, some y => some ⟨x, y⟩
    | _, _ => none
  | _ => none

def parseRanges : List String → Option (List Hunk)
  | [] => some []
  | r :: rs =>
    match parseRange r, parseRanges rs with
    | some h, some hs => some (h :: hs)
    | _, _ => none

/-- Modelled from the spec: `Ownership::parse_string` (`ownership.rs`
is outside the visible source; §9 leaves the exact encoding open and
proposes `path:start-end,start-end`).  A line is a non-empty path,
optionally followed by `:` and comma-separated ranges; every failure
carries the offending line in its message. -/
def Ownership.parse_string (l : String) : Except String Ownership :=
  match splitOnChar ':' l.data with
  | [p] =>
    if p.isEmpty then .error ("invalid ownership line: " ++ l)
    else .ok ⟨String.mk p, []⟩
  | [p, r] =>
    if p.isEmpty then .error ("invalid ownership line: " ++ l)
    else if r.isEmpty then .ok ⟨String.mk p, []⟩
    else
      match parseRanges ((splitOnChar ',' r).map String.mk) with
      | some hs => .ok ⟨String.mk p, hs⟩
      | none => .error ("invalid ownership line: " ++ l)
  | _ => .error ("invalid ownership line: " ++ l)

/-- Every failure of the modelled parser carries the offending line. -/
theorem parse_string_error {l e : String}
    (h : Ownership.parse_string l = .error e) :
    e = "invalid ownership line: " ++ l := by
  unfold Ownership.parse_string at h
  repeat' split at h
  all_goals first
    | (cases h; rfl)
    | exact Except.noConfusion h

/-- `.collect::<Result<Vec<Ownership>>>()` over the mapped lines: the
lines are parsed in order and the first failure aborts. -/
def parseLines (parse : String → Except String Ownership) :
    List String → Except String (List Ownership)
  | [] => .ok []
  | l :: ls =>
    match parse l with
    | .error e => .error e
    | .ok o =>
      match parseLines parse ls with
      | .error e => .error e
      | .ok os => .ok (o :: os)

/-- The three ways `Branch::try_from` can end: a decoded branch, an
`Err`, or a panic (the `unwrap()` calls on `Oid::from_str`). -/
inductive DecodeOutcome where
  | decoded (b : Branch)
  | failed (e : RError)
  | panicked
  deriving DecidableEq, Repr

/-- The per-field `map_err` of `Branch::try_from`:
`Error::IOError(io::Error::new(Other, format!("{path}: {e}")))`. -/
def wrapErr {α : Type} (p : String) : Except RError α → Except RError α
  | .error e => .error (.IOError (p ++ ": " ++ e.toMsg))
  | .ok a => .ok a

/-- Continuation helper: propagate an `Err` as `failed`, else keep
decoding. -/
def orFail {β : Type} (x : Except RError β) (k : β → DecodeOutcome) :
    DecodeOutcome :=
  match x with
  | .error e => .failed e
  | .ok v => k v

/-- `Branch::try_from(&dyn Reader)`: read each field in source order,
wrapping every failure with the field's path; parse the ownership lines
(any failure aborts, wrapped with `meta/ownership: `); finally
`Oid::from_str(..).unwrap()` on `tree` then `head` — a panic when
either string is not a valid object id.  The line parser is a
parameter, since `Ownership::parse_string` is outside the visible
source. -/
def Branch.try_from (parse : String → Except String Ownership) (rdr : Rdr) :
    DecodeOutcome :=
  orFail (wrapErr "id" (rdr.read_string "id")) fun id =>
  orFail (wrapErr "meta/name" (rdr.read_string "meta/name")) fun name =>
  orFail (wrapErr "meta/applied" (rdr.read_bool "meta/applied")) fun applied =>
  orFail (wrapErr "meta/upstream" (rdr.read_string "meta/upstream")) fun upstream =>
  orFail (wrapErr "meta/tree" (rdr.read_string "meta/tree")) fun tree =>
  orFail (wrapErr "meta/head" (rdr.read_string "meta/head")) fun head =>
  orFail (wrapErr "meta/created_timestamp_ms"
    (rdr.read_u128 "meta/created_timestamp_ms")) fun created_timestamp_ms =>
  orFail (wrapErr "meta/updated_timestamp_ms"
    (rdr.read_u128 "meta/updated_timestamp_ms")) fun updated_timestamp_ms =>
  orFail (wrapErr "meta/ownership" (rdr.read_string "meta/ownership"))
    fun ownership_string =>
  orFail ((parseLines parse (rustLines ownership_string)).mapError
      (fun e => RError.IOError ("meta/ownership: " ++ e))) fun ownership =>
  match Oid.fromStr tree with
  | none => .panicked
  | some treeOid =>
    match Oid.fromStr head with
    | none => .panicked
    | some headOid =>
      .decoded { id, name, applied, upstream, created_timestamp_ms,
                 updated_timestamp_ms, tree := treeOid, head := headOid,
                 ownership }

/-- `BranchReader::read_selected`. -/
def BranchReader.read_selected (r : Rdr) : Except RError (Option String) :=
  match r.read_string "branches/selected" with
  | .ok selected => .ok (some selected)
  | .error .NotFound => .ok none
  | .error e => .error e

/-- `BranchReader::read(id)`: absence check first, then decode through
a sub-reader scoped to `branches/{id}`. -/
def BranchReader.read (parse : String → Except String Ownership) (r : Rdr)
    (id : String) : DecodeOutcome :=
  if !r.exists_path ("branches/" ++ id) then .failed .NotFound
  else Branch.try_from parse (r.sub ("branches/" ++ id))

end GitButler

namespace GitButler

/-- C5: when `exists` is false at `branches/{id}`, `BranchReader::read`
fails with `NotFound`.  The reader is universally quantified, with its
`read_string`/`read_bool`/`read_u128` completely unconstrained, so the
result provably depends on no field read. -/
theorem c5_read_not_found (parse : String → Except String Ownership)
    (r : Rdr) (id : String)
    (h : r.exists_path ("branches/" ++ id) = false) :
    BranchReader.read parse r id = .failed .NotFound := by
  simp [BranchReader.read, h]

/-- A store for the C5 witness: nothing exists, every read would
succeed (showing the reads are not consulted). -/
def emptyStore : Rdr where
  read_string _ := .ok ""
  read_bool _ := .ok true
  read_u128 _ := .ok 0
  exists_path _ := false

/-- Witness for C5 at a concrete store and id. -/
theorem c5_read_not_found_witness :
    emptyStore.exists_path ("branches/" ++ "nonexistent-id") = false
    ∧ BranchReader.read Ownership.parse_string emptyStore "nonexistent-id"
      = .failed .NotFound :=
  ⟨rfl, c5_read_not_found Ownership.parse_string emptyStore "nonexistent-id" rfl⟩

/-- C6: `BranchReader::read_selected` returns `Ok(None)` exactly when
the read of `branches/selected` fails with `NotFound`, returns
`Ok(Some(s))` for a successful read of `s`, and passes any other error
(`IOError`) through unchanged. -/
theorem c6_read_selected_characterization (r : Rdr) :
    (BranchReader.read_selected r = .ok none ↔
      r.read_string "branches/selected" = .error .NotFound)
    ∧ (∀ s, r.read_string "branches/selected" = .ok s →
      BranchReader.read_selected r = .ok (some s))
    ∧ (∀ m, r.read_string "branches/selected" = .error (.IOError m) →
      BranchReader.read_selected r = .error (.IOError m)) := by
  refine ⟨⟨?_, ?_⟩, ?_, ?_⟩
  · intro h
    cases hr : r.read_string "branches/selected" with
    | ok s => simp [BranchReader.read_selected, hr] at h
    | error e =>
      cases e with
      | NotFound => rfl
      | IOError m => simp [BranchReader.read_selected, hr] at h
  · intro h
    simp [BranchReader.read_selected, h]
  · intro s h
    simp [BranchReader.read_selected, h]
  · intro m h
    simp [BranchReader.read_selected, h]

/-- A store for the C6 witness: only the catalog pointer exists. -/
def selectedStore : Rdr where
  read_string p :=
    if p = "branches/selected" then .ok "branch-42" else .error .NotFound
  read_bool _ := .error .NotFound
  read_u128 _ := .error .NotFound
  exists_path p := p = "branches/selected"

/-- Witness for C6: the stored pointer comes back as `Some`. -/
theorem c6_read_selected_witness :
    BranchReader.read_selected selectedStore = .ok (some "branch-42") :=
  (c6_read_selected_characterization selectedStore).2.1 "branch-42" rfl

end GitButler

namespace GitButler

/-- C8: every field-read failure in `Branch::try_from` surfaces as an
`IOError` whose message is the field's path, a `": "` separator, and
the underlying error's own display — so the path appears as context and
the underlying error is carried, never swallowed.  One conjunct per
field, each assuming the fields read before it succeed. -/
theorem c8_field_error_context (parse : String → Except String Ownership)
    (r : Rdr) :
    (∀ e, r.read_string "id" = .error e →
      Branch.try_from parse r = .failed (.IOError ("id: " ++ e.toMsg)))
    ∧ (∀ v1 e, r.read_string "id" = .ok v1 →
      r.read_string "meta/name" = .error e →
      Branch.try_from parse r = .failed (.IOError ("meta/name: " ++ e.toMsg)))
    ∧ (∀ v1 v2 e, r.read_string "id" = .ok v1 →
      r.read_string "meta/name" = .ok v2 →
      r.read_bool "meta/applied" = .error e →
      Branch.try_from parse r = .failed (.IOError ("meta/applied: " ++ e.toMsg)))
    ∧ (∀ v1 v2 v3 e, r.read_string "id" = .ok v1 →
      r.read_string "meta/name" = .ok v2 →
      r.read_bool "meta/applied" = .ok v3 →
      r.read_string "meta/upstream" = .error e →
      Branch.try_from parse r = .failed (.IOError ("meta/upstream: " ++ e.toMsg)))
    ∧ (∀ v1 v2 v3 v4 e, r.read_string "id" = .ok v1 →
      r.read_string "meta/name" = .ok v2 →
      r.read_bool "meta/applied" = .ok v3 →
      r.read_string "meta/upstream" = .ok v4 →
      r.read_string "meta/tree" = .error e →
      Branch.try_from parse r = .failed (.IOError ("meta/tree: " ++ e.toMsg)))
    ∧ (∀ v1 v2 v3 v4 v5 e, r.read_string "id" = .ok v1 →
      r.read_string "meta/name" = .ok v2 →
      r.read_bool "meta/applied" = .ok v3 →
      r.read_string "meta/upstream" = .ok v4 →
      r.read_string "meta/tree" = .ok v5 →
      r.read_string "meta/head" = .error e →
      Branch.try_from parse r = .failed (.IOError ("meta/head: " ++ e.toMsg)))
    ∧ (∀ v1 v2 v3 v4 v5 v6 e, r.read_string "id" = .ok v1 →
      r.read_string "meta/name" = .ok v2 →
      r.read_bool "meta/applied" = .ok v3 →
      r.read_string "meta/upstream" = .ok v4 →
      r.read_string "meta/tree" = .ok v5 →
      r.read_string "meta/head" = .ok v6 →
      r.read_u128 "meta/created_timestamp_ms" = .error e →
      Branch.try_from parse r
        = .failed (.IOError ("meta/created_timestamp_ms: " ++ e.toMsg)))
    ∧ (∀ v1 v2 v3 v4 v5 v6 v7 e, r.read_string "id" = .ok v1 →
      r.read_string "meta/name" = .ok v2 →
      r.read_bool "meta/applied" = .ok v3 →
      r.read_string "meta/upstream" = .ok v4 →
      r.read_string "meta/tree" = .ok v5 →
      r.read_string "meta/head" = .ok v6 →
      r.read_u128 "meta/created_timestamp_ms" = .ok v7 →
      r.read_u128 "meta/updated_timestamp_ms" = .error e →
      Branch.try_from parse r
        = .failed (.IOError ("meta/updated_timestamp_ms: " ++ e.toMsg)))
    ∧ (∀ v1 v2 v3 v4 v5 v6 v7 v8 e, r.read_string "id" = .ok v1 →
      r.read_string "meta/name" = .ok v2 →
      r.read_bool "meta/applied" = .ok v3 →
      r.read_string "meta/upstream" = .ok v4 →
      r.read_string "meta/tree" = .ok v5 →
      r.read_string "meta/head" = .ok v6 →
      r.read_u128 "meta/created_timestamp_ms" = .ok v7 →
      r.read_u128 "meta/updated_timestamp_ms" = .ok v8 →
      r.read_string "meta/ownership" = .error e →
      Branch.try_from parse r
        = .failed (.IOError ("meta/ownership: " ++ e.toMsg))) := by
  refine ⟨?_, ?_, ?_, ?_, ?_, ?_, ?_, ?_, ?_⟩ <;>
    · intros
      simp [Branch.try_from, orFail, wrapErr, *]

/-- A store for the C8 witness: `id` is present, everything else is
missing, so decoding fails at `meta/name` with the wrapped
`file not found`. -/
def idOnlyStore : Rdr where
  read_string p := if p = "id" then .ok "some-id" else .error .NotFound
  read_bool _ := .error .NotFound
  read_u128 _ := .error .NotFound
  exists_path p := p = "id"

/-- Witness for C8: the `meta/name` conjunct at a concrete store; the
message is the field path plus the underlying error's display. -/
theorem c8_field_error_context_witness :
    Branch.try_from Ownership.parse_string idOnlyStore
      = .failed (.IOError ("meta/name: " ++ RError.toMsg .NotFound)) :=
  (c8_field_error_context Ownership.parse_string idOnlyStore).2.1
    "some-id" .NotFound rfl rfl

/-- C9: with every field read succeeding and the ownership lines
parsing, `Branch::try_from` panics (rather than returning an error)
when the stored `meta/tree` string is not a valid object id, likewise
for `meta/head`; and it returns a branch only when both strings are
valid ids. -/
theorem c9_invalid_oid_panics (parse : String → Except String Ownership)
    (r : Rdr) (idv namev upv treev headv ows : String) (apv : Bool)
    (cts uts : Nat) (os : List Ownership)
    (h1 : r.read_string "id" = .ok idv)
    (h2 : r.read_string "meta/name" = .ok namev)
    (h3 : r.read_bool "meta/applied" = .ok apv)
    (h4 : r.read_string "meta/upstream" = .ok upv)
    (h5 : r.read_string "meta/tree" = .ok treev)
    (h6 : r.read_string "meta/head" = .ok headv)
    (h7 : r.read_u128 "meta/created_timestamp_ms" = .ok cts)
    (h8 : r.read_u128 "meta/updated_timestamp_ms" = .ok uts)
    (h9 : r.read_string "meta/ownership" = .ok ows)
    (h10 : parseLines parse (rustLines ows) = .ok os) :
    (Oid.fromStr treev = none → Branch.try_from parse r = .panicked)
    ∧ (∀ t, Oid.fromStr treev = some t → Oid.fromStr headv = none →
      Branch.try_from parse r = .panicked)
    ∧ (∀ b, Branch.try_from parse r = .decoded b →
      (Oid.fromStr treev).isSome ∧ (Oid.fromStr headv).isSome) := by
  refine ⟨?_, ?_, ?_⟩
  · intro ht
    simp [Branch.try_from, orFail, wrapErr, Except.mapError, h1, h2, h3, h4,
      h5, h6, h7, h8, h9, h10, ht]
  · intro t ht hh
    simp [Branch.try_from, orFail, wrapErr, Except.mapError, h1, h2, h3, h4,
      h5, h6, h7, h8, h9, h10, ht, hh]
  · intro b hb
    cases ht : Oid.fromStr treev with
    | none =>
      simp [Branch.try_from, orFail, wrapErr, Except.mapError, h1, h2, h3, h4,
        h5, h6, h7, h8, h9, h10, ht] at hb
    | some t =>
      cases hh : Oid.fromStr headv with
      | none =>
        simp [Branch.try_from, orFail, wrapErr, Except.mapError, h1, h2, h3, h4,
          h5, h6, h7, h8, h9, h10, ht, hh] at hb
      | some h => simp

/-- A store for the C9 witness: all fields present and well-formed
except `meta/tree`, which holds `"zz"` — not a 160-bit hex id. -/
def badTreeStore : Rdr where
  read_string p :=
    if p = "meta/tree" then .ok "zz"
    else if p = "meta/head" then
      .ok "0123456789abcdef0123456789abcdef01234567"
    else .ok ""
  read_bool _ := .ok true
  read_u128 _ := .ok 0
  exists_path _ := true

/-- Witness for C9: decoding the concrete store panics. -/
theorem c9_invalid_oid_panics_witness :
    Oid.fromStr "zz" = none
    ∧ Branch.try_from Ownership.parse_string badTreeStore = .panicked :=
  ⟨rfl, (c9_invalid_oid_panics Ownership.parse_string badTreeStore
      "" "" "" "zz" "0123456789abcdef0123456789abcdef01234567" "" true 0 0 []
      rfl rfl rfl rfl rfl rfl rfl rfl rfl rfl).1 rfl⟩

end GitButler

namespace GitButler

/-- Lines before the first bad one parse fine, so `collect` surfaces the
bad line's error. -/
theorem parseLines_append_error (parse : String → Except String Ownership)
    (pre : List String) (l : String) (post : List String) (e : String)
    (hpre : ∀ x ∈ pre, ∃ o, parse x = .ok o)
    (hl : parse l = .error e) :
    parseLines parse (pre ++ l :: post) = .error e := by
  induction pre with
  | nil => simp [parseLines, hl]
  | cons p ps ih =>
    obtain ⟨o, ho⟩ := hpre p (by simp)
    have ihh := ih (fun x hx => hpre x (by simp [hx]))
    simp [parseLines, ho, ihh]

/-- C4: when the stored `meta/ownership` string contains a line that
`Ownership::parse_string` rejects (and the lines before it parse, as the
claim's "every other line parses successfully" allows), the decode fails
with an IO-class error whose message names `meta/ownership` and carries
the offending line, and no branch with a partial ownership list is ever
returned. -/
theorem c4_malformed_ownership_line (r : Rdr)
    (idv namev upv treev headv ows : String) (apv : Bool) (cts uts : Nat)
    (pre post : List String) (bad e : String)
    (h1 : r.read_string "id" = .ok idv)
    (h2 : r.read_string "meta/name" = .ok namev)
    (h3 : r.read_bool "meta/applied" = .ok apv)
    (h4 : r.read_string "meta/upstream" = .ok upv)
    (h5 : r.read_string "meta/tree" = .ok treev)
    (h6 : r.read_string "meta/head" = .ok headv)
    (h7 : r.read_u128 "meta/created_timestamp_ms" = .ok cts)
    (h8 : r.read_u128 "meta/updated_timestamp_ms" = .ok uts)
    (h9 : r.read_string "meta/ownership" = .ok ows)
    (hlines : rustLines ows = pre ++ bad :: post)
    (hpre : ∀ x ∈ pre, ∃ o, Ownership.parse_string x = .ok o)
    (hbad : Ownership.parse_string bad = .error e) :
    Branch.try_from Ownership.parse_string r
      = .failed (.IOError ("meta/ownership: "
          ++ ("invalid ownership line: " ++ bad)))
    ∧ ∀ b, Branch.try_from Ownership.parse_string r ≠ .decoded b := by
  have hee := parse_string_error hbad
  subst hee
  have hparse : parseLines Ownership.parse_string (rustLines ows)
      = .error ("invalid ownership line: " ++ bad) := by
    rw [hlines]
    exact parseLines_append_error _ _ _ _ _ hpre hbad
  constructor
  · simp [Branch.try_from, orFail, wrapErr, Except.mapError, h1, h2, h3, h4,
      h5, h6, h7, h8, h9, hparse]
  · intro b hb
    simp [Branch.try_from, orFail, wrapErr, Except.mapError, h1, h2, h3, h4,
      h5, h6, h7, h8, h9, hparse] at hb

/-- A store for the C4 witness: `meta/ownership` holds one good line and
one malformed line. -/
def badLineStore : Rdr where
  read_string p :=
    if p = "meta/ownership" then .ok "good.txt:1-3\nbad.txt:oops" else .ok ""
  read_bool _ := .ok true
  read_u128 _ := .ok 0
  exists_path _ := true

/-- Witness for C4: the good first line does not save the decode; the
error names the field and the bad line. -/
theorem c4_malformed_ownership_line_witness :
    Branch.try_from Ownership.parse_string badLineStore
      = .failed (.IOError ("meta/ownership: "
          ++ ("invalid ownership line: " ++ "bad.txt:oops"))) :=
  (c4_malformed_ownership_line badLineStore "" "" "" "" ""
    "good.txt:1-3\nbad.txt:oops" true 0 0 ["good.txt:1-3"] [] "bad.txt:oops"
    ("invalid ownership line: " ++ "bad.txt:oops")
    rfl rfl rfl rfl rfl rfl rfl rfl rfl rfl
    (by
      intro x hx
      rw [List.mem_singleton] at hx
      subst hx
      exact ⟨⟨"good.txt", [⟨1, 3⟩]⟩, rfl⟩)
    rfl).1

end GitButler

namespace GitButler

/-! ### The terminal selection prompt (`cli-prompts`) -/

/-- The key events of `crate::input::Key` that `on_key_pressed` names
(the input module is outside the visible source; unnamed variants all
fall to the wildcard arm, represented by `Left`/`Right`/`Tab`). -/
inductive Key where
  | Char (c : Char)
  | Ctrl (c : Char)
  | Backspace
  | Enter
  | Esc
  | Up
  | Down
  | Home
  | End
  | Left
  | Right
  | Tab
  deriving DecidableEq, Repr

/-- The abort reason used by the `Esc` arm. -/
inductive AbortReason where
  | Interrupt
  deriving DecidableEq, Repr

/-- `EventOutcome<T>`: keep prompting, finish with a value, or abort. -/
inductive EventOutcome (α : Type) where
  | Continue
  | Done (a : α)
  | Abort (r : AbortReason)
  deriving DecidableEq, Repr

/-- The option store behind the prompt (`Options<T>` lives outside the
visible source; its accessors `all_options_mut` / `transformed_options`
/ `filtered_options` determine these fields — `filtered_options` is the
list of indices into the full option list that survive the filter). -/
structure Options (α : Type) where
  all_options : List α
  transformed_options : List String
  filtered_options : List Nat
  deriving DecidableEq, Repr

/-- The `Selection<T>` prompt state; the drawing-only `style` field is
omitted (`on_key_pressed` never touches it). -/
structure Selection (α : Type) where
  label : String
  options : Options α
  current_selection : Nat
  max_options : Nat
  current_filter : String
  is_submitted : Bool
  deriving DecidableEq, Repr

/-- `filtered_options().len().saturating_sub(1)` (Nat subtraction is
saturating). -/
def Selection.last_filtered_index {α : Type} (s : Selection α) : Nat :=
  s.options.filtered_options.length - 1

def Selection.move_selection_up {α : Type} (s : Selection α) : Selection α :=
  { s with current_selection := s.current_selection - 1 }

/-- `saturating_add(1)` then clamp to the last filtered index; the
saturation at `usize::MAX` is unreachable in `Nat`. -/
def Selection.move_selection_down {α : Type} (s : Selection α) : Selection α :=
  { s with current_selection := min (s.current_selection + 1) s.last_filtered_index }

def Selection.move_selection_to_start {α : Type} (s : Selection α) :
    Selection α :=
  { s with current_selection := 0 }

def Selection.move_selection_to_end {α : Type} (s : Selection α) :
    Selection α :=
  { s with current_selection := s.last_filtered_index }

/-- Result of one key event: the mutated prompt plus the returned
`EventOutcome`, or a panic (the two indexings in the `Enter` arm can be
out of bounds in Rust). -/
inductive KeyOutcome (α : Type) where
  | normal (s : Selection α) (out : EventOutcome α)
  | panicked
  deriving DecidableEq, Repr

/-- `Selection::on_key_pressed`.  `Options::filter` lives outside the
visible source, so the refiltering step is a parameter `refilter`; every
arm else follows the Rust `match` including its guards (a guarded arm
whose guard fails falls through to the wildcard `Continue` arm). -/
def Selection.on_key_pressed {α : Type}
    (refilter : Options α → String → Options α)
    (s : Selection α) (key : Key) : KeyOutcome α :=
  match key with
  | .Char c =>
    let f := s.current_filter.push c
    .normal { s with current_filter := f, options := refilter s.options f, current_selection := 0 } .Continue
  | .Backspace =>
    if !s.current_filter.isEmpty then
      let f := s.current_filter.dropRight 1
      .normal { s with current_filter := f, options := refilter s.options f, current_selection := 0 } .Continue
    else .normal s .Continue
  | .Up => .normal s.move_selection_up .Continue
  | .Down => .normal s.move_selection_down .Continue
  | .Home => .normal s.move_selection_to_start .Continue
  | .End => .normal s.move_selection_to_end .Continue
  | .Ctrl c =>
    if c = 'p' ∨ c = 'P' then .normal s.move_selection_up .Continue
    else if c = 'n' ∨ c = 'N' then .normal s.move_selection_down .Continue
    else if c = 'a' ∨ c = 'A' then .normal s.move_selection_to_start .Continue
    else if c = 'e' ∨ c = 'E' then .normal s.move_selection_to_end .Continue
    else .normal s .Continue
  | .Enter =>
    if !s.options.filtered_options.isEmpty then
      match s.options.filtered_options[s.current_selection]? with
      | none => .panicked
      | some idx =>
        match s.options.all_options[idx]? with
        | none => .panicked
        | some chosen =>
          let opts := { s.options with all_options := s.options.all_options.eraseIdx idx }
          .normal { s with is_submitted := true, options := opts } (.Done chosen)
    else .normal s .Continue
  | .Esc => .normal s (.Abort .Interrupt)
  | _ => .normal s .Continue

/-- C10: with an empty filtered option list, the `Enter` arm's guard
fails and the event falls to the wildcard arm: the outcome is
`Continue` and the prompt state is returned unchanged — in particular
`is_submitted` stays `false` and no option is removed, and the empty
list is never indexed. -/
theorem c10_enter_empty_filtered {α : Type}
    (refilter : Options α → String → Options α) (s : Selection α)
    (h : s.options.filtered_options = []) :
    Selection.on_key_pressed refilter s .Enter = .normal s .Continue := by
  simp [Selection.on_key_pressed, h]

/-- Witness for C10 at a concrete prompt whose filter matches nothing. -/
theorem c10_enter_empty_filtered_witness :
    Selection.on_key_pressed (fun (o : Options String) _ => o)
      { label := "Pick one",
        options := { all_options := ["a", "b"],
                     transformed_options := ["a", "b"],
                     filtered_options := [] },
        current_selection := 0, max_options := 5,
        current_filter := "z", is_submitted := false } .Enter
      = .normal
      { label := "Pick one",
        options := { all_options := ["a", "b"],
                     transformed_options := ["a", "b"],
                     filtered_options := [] },
        current_selection := 0, max_options := 5,
        current_filter := "z", is_submitted := false } .Continue :=
  c10_enter_empty_filtered (fun o _ => o) _ rfl

end GitButler
